import Mathlib

/-!
A shallow embedding of the wave-function-collapse program: the pattern
catalog builder `image_to_textures` from `src/main.rs`, the edge-code
adjacency builder `create_adjacency_rules` from `src/tile_model.rs`, and
the solver (`Map` with `compare`, `unwind`, `collapse`,
`lowest_entropy_tile`, `step`, `reset`) from `src/main.rs`.

Modelling conventions:
- pixel colors are abstracted as natural numbers; an `Image` is its
  dimensions plus a row-major pixel list, exactly as macroquad stores
  the byte buffer;
- the render-only fields of `Map` (`image`, `texture`) and all drawing
  code (`draw_image`, `apply_collapse`, which only write pixels) are
  omitted; `apply_collapse` therefore does not appear in `Map.step`;
- `rand::gen_range(0, total_weights + 1)` is modelled by an oracle
  argument `d`, reduced as `d % (total_weights + 1)` (macroquad reduces
  its raw random value into the half-open range the same way), and
  `ChooseRandom::choose` on a list of length `n` is modelled by an
  oracle argument `k`, picking index `k % n`;
- machine-integer arithmetic in `choose_pattern` is modelled with its
  wrapping: `u32` additions reduce mod `2^32`, the `as i32` casts
  reinterpret the `u32` bits in twos complement (`u32_as_i32`), and the
  `i32` subtraction normalizes into `[-2^31, 2^31)` (`i32_sub`);
- a Rust panic inside `image_to_textures` (an out-of-bounds byte read in
  `Image::sub_image`, or `width % 0`) is modelled as `none`; the panics
  in `unwind` (`pop().unwrap()` on an empty history, indexing an empty
  snapshot) sit on branches that are unreachable from `step`, and are
  modelled as leaving the map unchanged.
-/

namespace WFC

/-- An image: dimensions plus the row-major pixel buffer, colors
abstracted as naturals (macroquad `Image`). -/
structure Image where
  width : Nat
  height : Nat
  data : List Nat
deriving DecidableEq

/-- macroquad `Image::sub_image(Rect::new(x, y, w, h))`: copies pixel
`(x+i, y+j)` of the source, addressed linearly as
`(y+j)*self.width + (x+i)` into the byte buffer, to output position
`j*w + i`.  An out-of-bounds buffer read panics in Rust; modelled as
`none`. -/
def Image.sub_image (img : Image) (x y w h : Nat) : Option Image := do
  let data ← (List.range (w * h)).mapM (fun n =>
    let j := n / w
    let i := n % w
    img.data[(y + j) * img.width + (x + i)]?)
  pure ⟨w, h, data⟩

/-- macroquad `Image::get_image_data`: the raw pixel array. -/
def Image.get_image_data (img : Image) : List Nat := img.data

/-- One clockwise rotation step of `rotate_image` (`src/main.rs:402`):
`new_image.set_pixel(h - 1 - y, x, image_store.get_pixel(x, y))`, i.e.
output position `(a, b)` (buffer index `a*width + b` with `a = x`,
`b = h - 1 - y`) receives source pixel `(b', a')` with `b' = a`,
`a' = h - 1 - b`.  On the square tiles this is applied to, every output
position is written exactly once. -/
def rotate_once (img : Image) : Image :=
  ⟨img.width, img.height,
    (List.range (img.width * img.height)).map (fun n =>
      let a := n / img.width
      let b := n % img.width
      img.data.getD ((img.height - 1 - b) * img.width + a) 0)⟩

/-- `rotate_image(image, rot)` (`src/main.rs:402`): `rot` clockwise
rotation passes over a clone of the input. -/
def rotate_image : Image → Nat → Image
  | img, 0 => img
  | img, n + 1 => rotate_image (rotate_once img) n

/-- The body of the `for rot in 0..4` loop of `image_to_textures`
(`src/main.rs:45-67`) for one rotation: look for an existing texture
with identical pixel data (`find_map` over `enumerate`); if found and
`rot == 0`, bump its weight; if not found, push the texture with
weight 1. -/
def dedup_push (textures : List Image) (weights : List Nat) (tex : Image)
    (rot : Nat) : List Image × List Nat :=
  match textures.findIdx? (fun t => t.get_image_data == tex.get_image_data) with
  | some i =>
      if rot == 0 then (textures, weights.set i (weights.getD i 0 + 1))
      else (textures, weights)
  | none => (textures ++ [tex], weights ++ [1])

/-- The full `for rot in 0..4` loop at one window origin: the window is
re-extracted (identically) each iteration in the source, so it is taken
once here, rotated `rot` times, and deduplicated. -/
def process_rotations (img0 : Image) (textures : List Image)
    (weights : List Nat) : List Image × List Nat :=
  ([0, 1, 2, 3] : List Nat).foldl
    (fun acc rot => dedup_push acc.1 acc.2 (rotate_image img0 rot) rot)
    (textures, weights)

/-- The window origins visited along one axis by the
`x += step; if x >= width { x = 0; y += step }` walk: the multiples of
`step` below the bound. -/
def step_multiples (bound step : Nat) : List Nat :=
  (List.range bound).filter (fun v => v % step == 0)

/-- One iteration of the `while x < width && y < height` loop of
`image_to_textures` (`src/main.rs:44-73`): extract the window at the
given origin (panic, i.e. `none`, on an out-of-bounds read) and fold in
its four rotations. -/
def itt_visit (image : Image) (s : Nat)
    (acc : Option (List Image × List Nat)) (cell : Nat × Nat) :
    Option (List Image × List Nat) := do
  let tw ← acc
  let img0 ← image.sub_image cell.1 cell.2 (s + 1) (s + 1)
  pure (process_rotations img0 tw.1 tw.2)

/-- `image_to_textures(image, step)` (`src/main.rs:35-75`).  Only
`image.width() % step != 0` is checked (height is not); on that check
the two empty vectors are returned.  Otherwise the while-loop walks the
origins row-major: `x` over the multiples of `step` below `width`
(exact, since `width` is divisible), then `y += step`, continuing while
`y < height` — i.e. it visits every `(x, y)` with `x`/`y` a multiple of
`step` below `width`/`height`, in row-major order.  `step = 0` panics
in Rust at the `%` (modelled `none`). -/
def image_to_textures (image : Image) : Nat → Option (List Image × List Nat)
  | 0 => none
  | s + 1 =>
    if image.width % (s + 1) ≠ 0 then some ([], [])
    else
      ((step_multiples image.height (s + 1)).flatMap (fun y =>
          (step_multiples image.width (s + 1)).map (fun x => (x, y)))).foldl
        (itt_visit image s) (some ([], []))

/-- The `[usize; 4]` of edge codes of a pattern, indexed
top/right/bottom/left as in `get_edge_colors` (`[top, right, bottom,
left]`). -/
structure Edges where
  top : Nat
  right : Nat
  bottom : Nat
  left : Nat
deriving DecidableEq

/-- Array indexing `edges[i]` for `i` in `0..4` (any other index panics
in Rust and is never used). -/
def Edges.get (e : Edges) : Nat → Nat
  | 0 => e.top
  | 1 => e.right
  | 2 => e.bottom
  | 3 => e.left
  | _ => 0

def defaultEdges : Edges := ⟨0, 0, 0, 0⟩

/-- `Pattern` (`src/main.rs:129-134`). -/
structure Pattern where
  texture_index : Nat
  edges : Edges
  weight : Nat
deriving DecidableEq

/-- `patterns_are_equal` (`src/main.rs:23-25`): equality on
`texture_index` only. -/
def patterns_are_equal (pa pb : Pattern) : Bool :=
  pa.texture_index == pb.texture_index

/-- `xy_from_index` (`src/main.rs:27-29`). -/
def xy_from_index (index width : Nat) : Nat × Nat :=
  (index % width, index / width)

/-- `index_from_xy` (`src/main.rs:31-33`). -/
def index_from_xy (x y width : Nat) : Nat :=
  x + y * width

/-- `MapTile` (`src/main.rs:165-169`). -/
structure MapTile where
  collapsed : Option Pattern
  options : List Pattern
deriving DecidableEq

def defaultTile : MapTile := ⟨none, []⟩

/-- The value the Rust cast `w as i32` produces from a `u32` bit
pattern (a natural below `2^32`): the same bits reinterpreted in twos
complement, negative for `w >= 2^31`.  An `as` cast always wraps, in
debug and release builds alike. -/
def u32_as_i32 (n : Nat) : Int :=
  if n % 4294967296 < 2147483648 then ((n % 4294967296 : Nat) : Int)
  else ((n % 4294967296 : Nat) : Int) - 4294967296

/-- Normalization of an `i32` arithmetic result into
`[-2^31, 2^31)` — release-build wrapping semantics; a debug build
panics at the same spot instead of wrapping.  The theorems below stay
within wrap-free ranges, so the build-mode distinction never matters
for them. -/
def i32_wrap (z : Int) : Int :=
  (z + 2147483648) % 4294967296 - 2147483648

/-- The `i32` subtraction `target_weight -= p.weight as i32`. -/
def i32_sub (a b : Int) : Int := i32_wrap (a - b)

/-- The `find` walk of `MapTile::choose_pattern` (`src/main.rs:182-187`):
the closure computes `target_weight -= p.weight as i32` (`i32`
arithmetic on the wrapped `u32 -> i32` cast of the weight) and stops at
the first pattern where the running value is `<= 0`; `find` returning
`None` corresponds to the `unwrap` panicking. -/
def choose_walk : List Pattern → Int → Option Pattern
  | [], _ => none
  | p :: ps, tw =>
      let tw2 := i32_sub tw (u32_as_i32 p.weight)
      if tw2 ≤ 0 then some p
      else choose_walk ps tw2

/-- `MapTile::choose_pattern` (`src/main.rs:179-190`): total the weights
with `u32` additions (each step reduced mod `2^32`), draw
`gen_range(0, total_weights + 1)` (the `+ 1` is a `u32` addition too;
oracle `d`, reduced modulo the range size), cast the draw `as i32`, and
walk.  When `total_weights` is `u32::MAX` the range size wraps to `0` —
a degenerate `gen_range` call (Rust panics on the overflow in debug and
on the empty range otherwise), modelled as `none` and unreachable in
every theorem below. -/
def MapTile.choose_pattern (t : MapTile) (d : Nat) : Option Pattern :=
  let total_weights := t.options.foldl (fun acc p => (acc + p.weight) % 4294967296) 0
  if (total_weights + 1) % 4294967296 = 0 then none
  else choose_walk t.options (u32_as_i32 (d % ((total_weights + 1) % 4294967296)))

/-- `HISTORY_LENGTH` (`src/main.rs:10`). -/
def HISTORY_LENGTH : Nat := 10

/-- `usize::MAX`, the initial `lowest_entropy_value`. -/
def USIZE_MAX : Nat := 18446744073709551615

/-- `Map` (`src/main.rs:205-213`) without the render-only `image` and
`texture` fields.  The history vector grows at the back (`push`) and is
evicted at the front (`remove(0)`). -/
structure Map where
  width : Nat
  height : Nat
  tiles : List MapTile
  history : List (List (MapTile × Nat) × Pattern)
deriving DecidableEq

/-- `Map::reset` (`src/main.rs:226-232`): refill every tile's options,
clear its collapsed pattern, clear the history. -/
def Map.reset (m : Map) (options : List Pattern) : Map :=
  { m with
    tiles := m.tiles.map (fun _ => ⟨none, options⟩)
    history := [] }

/-- `Map::compare` (`src/main.rs:254-259`): at grid cell `(x, y)`,
retain only the options whose edge `edge_size_j` equals the given
pattern's edge `edge_size_i`.  `width` is never mutated, so `m.width`
here always equals the width at entry to the enclosing call. -/
def Map.compare (m : Map) (pattern : Pattern) (x y edge_size_i edge_size_j : Nat) :
    Map :=
  let j := index_from_xy x y m.width
  let t := m.tiles.getD j defaultTile
  { m with
    tiles := m.tiles.set j
      { t with options :=
          t.options.filter (fun p => p.edges.get edge_size_j == pattern.edges.get edge_size_i) } }

/-- `Map::get_surrounding_indexes` (`src/main.rs:271-307`): the cell
itself first, then the four direct and four diagonal neighbors, each
guarded by the same boundary tests as the source. -/
def Map.get_surrounding_indexes (m : Map) (x y : Nat) : List Nat :=
  [index_from_xy x y m.width]
  ++ (if y ≠ 0 then [index_from_xy x (y - 1) m.width] else [])
  ++ (if x ≠ m.width - 1 then [index_from_xy (x + 1) y m.width] else [])
  ++ (if y ≠ m.height - 1 then [index_from_xy x (y + 1) m.width] else [])
  ++ (if x ≠ 0 then [index_from_xy (x - 1) y m.width] else [])
  ++ (if y ≠ 0 ∧ x ≠ 0 then [index_from_xy (x - 1) (y - 1) m.width] else [])
  ++ (if y ≠ 0 ∧ x ≠ m.width - 1 then [index_from_xy (x + 1) (y - 1) m.width] else [])
  ++ (if y ≠ m.height - 1 ∧ x ≠ 0 then [index_from_xy (x - 1) (y + 1) m.width] else [])
  ++ (if y ≠ m.height - 1 ∧ x ≠ m.width - 1 then [index_from_xy (x + 1) (y + 1) m.width] else [])

/-- The `map_tiles` snapshot taken by `Map::step` (`src/main.rs:322`):
the pre-collapse tiles at the surrounding indexes, paired with their
indexes. -/
def Map.snapshot_tiles (m : Map) (x y : Nat) : List (MapTile × Nat) :=
  (m.get_surrounding_indexes x y).map (fun i => (m.tiles.getD i defaultTile, i))

/-- `Map::unwind` (`src/main.rs:261-269`): pop the most recent history
entry, remove the attempted pattern (by `patterns_are_equal`) from the
first captured tile's options, then write every captured tile back at
its index.  The `unwrap` on an empty history and the `[0]` on an empty
snapshot panic in Rust; both are unreachable from `step` and modelled
as leaving the map unchanged (beside the pop). -/
def Map.unwind (m : Map) : Map :=
  match m.history.getLast? with
  | none => m
  | some (map_tiles, pattern) =>
    let rest := m.history.dropLast
    match map_tiles with
    | [] => { m with history := rest }
    | (t0, i0) :: others =>
      let t0' := { t0 with
        options := t0.options.filter (fun p => !(patterns_are_equal p pattern)) }
      { m with
        tiles := (((t0', i0) :: others).foldl
          (fun ts ti => ts.set ti.2 ti.1) m.tiles)
        history := rest }

/-- The four direct-neighbor `compare` calls of `Map::collapse`
(`src/main.rs:379-394`), in source order: top, then the cell to the
east (`x + 1`, guarded by `x != width - 1`), then bottom, then the cell
to the west (`x - 1`, guarded by `x != 0`). -/
def Map.compare_neighbors (m : Map) (pattern : Pattern) (x y : Nat) : Map :=
  let m1 := if y ≠ 0 then m.compare pattern x (y - 1) 0 2 else m
  let m2 := if x ≠ m.width - 1 then m1.compare pattern (x + 1) y 1 3 else m1
  let m3 := if y ≠ m.height - 1 then m2.compare pattern x (y + 1) 2 0 else m2
  if x ≠ 0 then m3.compare pattern (x - 1) y 3 1 else m3

/-- The grid indexes targeted by the four `compare` calls of
`Map::collapse` for a collapse at `(x, y)`. -/
def Map.neighbor_targets (m : Map) (x y : Nat) : List Nat :=
  (if y ≠ 0 then [index_from_xy x (y - 1) m.width] else [])
  ++ (if x ≠ m.width - 1 then [index_from_xy (x + 1) y m.width] else [])
  ++ (if y ≠ m.height - 1 then [index_from_xy x (y + 1) m.width] else [])
  ++ (if x ≠ 0 then [index_from_xy (x - 1) y m.width] else [])

/-- `Map::collapse` (`src/main.rs:368-399`): `None` on an empty domain;
otherwise choose a pattern (oracle `d`), run the four neighbor
`compare`s, and set the cell's `collapsed` field (its `options` are not
touched).  `choose_pattern` returning `none` models its `unwrap`
panicking (possible when a `u32` weight reaches `2^31`, whose `as i32`
cast is negative); the corresponding branch here returns `(none, m)`,
matching the Rust only in that no commit happens — no theorem below
goes through this branch with `choose_pattern` returning `none`. -/
def Map.collapse (m : Map) (x y : Nat) (d : Nat) : Option Pattern × Map :=
  let i := index_from_xy x y m.width
  if (m.tiles.getD i defaultTile).options.length == 0 then (none, m)
  else
    match (m.tiles.getD i defaultTile).choose_pattern d with
    | none => (none, m)
    | some pattern =>
      let m4 := m.compare_neighbors pattern x y
      (some pattern,
        { m4 with
          tiles := m4.tiles.set i
            { (m4.tiles.getD i defaultTile) with collapsed := some pattern } })

/-- The body of the scan loop of `Map::lowest_entropy_tile`
(`src/main.rs:346-359`): skip collapsed tiles; a strictly smaller
entropy restarts the candidate list, an equal one appends. -/
def entropy_fold (m : Map) (acc : List (Nat × Nat) × Nat) (i : Nat) :
    List (Nat × Nat) × Nat :=
  let t := m.tiles.getD i defaultTile
  let xy := xy_from_index i m.width
  if t.collapsed.isNone then
    let entropy_value := t.options.length
    if entropy_value < acc.2 then ([xy], entropy_value)
    else if entropy_value == acc.2 then (acc.1 ++ [xy], acc.2)
    else acc
  else acc

/-- `Map::lowest_entropy_tile` (`src/main.rs:342-366`): scan all tiles,
then `choose` a random candidate (oracle `k`, index `k % length`);
`None` when every tile is collapsed. -/
def Map.lowest_entropy_tile (m : Map) (k : Nat) : Option (Nat × Nat) :=
  let res := (List.range m.tiles.length).foldl (entropy_fold m) ([], USIZE_MAX)
  match res.1 with
  | [] => none
  | l => some (l.getD (k % l.length) (0, 0))

/-- `Map::step` (`src/main.rs:319-340`): observe (oracle `k`), snapshot
the surrounding tiles, collapse (oracle `d`).  On success push the
snapshot and evict the oldest entry when `history.len() - 1 ==
HISTORY_LENGTH`; on a contradiction unwind if the history is non-empty;
otherwise return `false`.  (`apply_collapse` only writes pixels and is
omitted.) -/
def Map.step (m : Map) (k d : Nat) : Map × Bool :=
  match m.lowest_entropy_tile k with
  | some (x, y) =>
    let map_tiles := m.snapshot_tiles x y
    match m.collapse x y d with
    | (some pattern, m2) =>
      let h := m2.history ++ [(map_tiles, pattern)]
      let h := if h.length - 1 == HISTORY_LENGTH then h.drop 1 else h
      ({ m2 with history := h }, true)
    | (none, m2) =>
      if 0 < m2.history.length then (m2.unwind, true) else (m2, false)
  | none => (m, false)

/-- `OPPOSITE_EDGES_INDEXES` (`src/tile_model.rs:7`). -/
def OPPOSITE_EDGES_INDEXES : List (Nat × Nat) := [(0, 2), (1, 3), (2, 0), (3, 1)]

/-- `N_INDEXES` (`src/utils.rs:7`): up, right, down, left offsets. -/
def N_INDEXES : List (Int × Int) := [(0, -1), (1, 0), (0, 1), (-1, 0)]

/-- `TileProcessor::create_adjacency_rules` (`src/tile_model.rs:57-82`),
taking the per-pattern edge codes `edge_data = get_edges_for_images
(images)` (the images themselves are only used for their count).  For
each source pattern and each of the four neighbor offsets, the admitted
targets are collected in ascending target order (the source iterates
targets in the outer loop and offsets in the inner one, which fills each
offset's vector in the same ascending order). -/
def create_adjacency_rules (edge_data : List Edges) :
    List (List ((Int × Int) × List Nat)) :=
  (List.range edge_data.length).map (fun idx =>
    (List.range 4).map (fun n_idx =>
      let oe := OPPOSITE_EDGES_INDEXES.getD n_idx (0, 0)
      (N_INDEXES.getD n_idx (0, 0),
        (List.range edge_data.length).filter (fun target_idx =>
          (edge_data.getD idx defaultEdges).get oe.1
            == (edge_data.getD target_idx defaultEdges).get oe.2))))

/-- Lookup in one pattern's adjacency map (the `HashMap` keyed by the
neighbor offset). -/
def assoc_lookup : List ((Int × Int) × List Nat) → (Int × Int) → List Nat
  | [], _ => []
  | (key, v) :: rest, off => if key = off then v else assoc_lookup rest off

/-- The set of pattern ids the adjacency table admits as the neighbor of
pattern `a` at offset `off`. -/
def adjacency_lookup (edge_data : List Edges) (a : Nat) (off : Int × Int) :
    List Nat :=
  assoc_lookup ((create_adjacency_rules edge_data).getD a []) off

/-! Concrete data used by witnesses and counterexamples.  The four
patterns chain by edge codes: `pA`'s right edge matches `pB`'s left,
`pB`'s right matches `pC`'s left; `pD`'s left edge matches nothing. -/

def pA : Pattern := ⟨0, ⟨0, 1, 0, 0⟩, 1⟩
def pB : Pattern := ⟨1, ⟨0, 2, 0, 1⟩, 1⟩
def pC : Pattern := ⟨2, ⟨0, 0, 0, 2⟩, 1⟩
def pD : Pattern := ⟨3, ⟨0, 0, 0, 9⟩, 1⟩

/-- A pattern whose `u32` weight (`2^31 + 10`) is reinterpreted as a
negative `i32` by the cast in `choose_pattern`'s walk. -/
def pBig : Pattern := ⟨0, ⟨0, 0, 0, 0⟩, 2147483658⟩

/-- A 3×1 grid: the left cell is forced to `pA`, the other two are
open. -/
def M1 : Map :=
  ⟨3, 1,
    [⟨none, [pA]⟩, ⟨none, [pA, pB, pC, pD]⟩, ⟨none, [pA, pB, pC, pD]⟩],
    []⟩

/-- A 1×1 grid with a two-pattern domain. -/
def M5 : Map := ⟨1, 1, [⟨none, [pA, pB]⟩], []⟩

/-- A 2×1 grid whose right cell is incompatible with the forced left
cell. -/
def M6 : Map := ⟨2, 1, [⟨none, [pA]⟩, ⟨none, [pD]⟩], []⟩

/-- A fully collapsed 1×1 grid. -/
def Mfin : Map := ⟨1, 1, [⟨some pA, [pA]⟩], []⟩

/-- A 1×1 grid in contradiction (empty domain) with one history entry. -/
def McontraH : Map :=
  ⟨1, 1, [⟨none, []⟩], [([(⟨none, [pA, pB]⟩, 0)], pA)]⟩

/-- A 1×1 grid in contradiction with empty history. -/
def McontraE : Map := ⟨1, 1, [⟨none, []⟩], []⟩

/-- A 2×1 grid with one history snapshot covering both cells; the
snapshot's target cell is 0 and the attempted pattern is `pA`. -/
def MundoEx : Map :=
  ⟨2, 1, [⟨some pA, [pA]⟩, ⟨none, [pB]⟩],
    [([(⟨none, [pA, pB]⟩, 0), (⟨none, [pC]⟩, 1)], pA)]⟩

/-- A list of ten identical history snapshots (a full history ring). -/
def fullHistory : List (List (MapTile × Nat) × Pattern) :=
  List.replicate 10 ([(⟨none, [pA]⟩, 0)], pB)

/-- A 1×1 grid with a full (length-10) history. -/
def MfullH : Map := ⟨1, 1, [⟨none, [pA]⟩], fullHistory⟩

/-- Two edge-code vectors for the adjacency-symmetry witness: pattern 0's
bottom code (2) equals pattern 1's... pattern 1's top code is 2, and
pattern 0's right code (1) equals pattern 1's left code. -/
def edEx : List Edges := [⟨0, 1, 2, 3⟩, ⟨2, 5, 0, 1⟩]

/-! Generic list lemmas about `set`, `getD` and folded writes. -/

theorem getD_set_ne {α : Type} (l : List α) (i j : Nat) (v d : α) (h : i ≠ j) :
    (l.set i v).getD j d = l.getD j d := by
  induction l generalizing i j with
  | nil => rfl
  | cons a t ih =>
    cases i with
    | zero =>
      cases j with
      | zero => exact absurd rfl h
      | succ j0 => rfl
    | succ i0 =>
      cases j with
      | zero => rfl
      | succ j0 =>
        show (t.set i0 v).getD j0 d = t.getD j0 d
        exact ih i0 j0 (fun he => h (by omega))

theorem getD_set_self {α : Type} (l : List α) (i : Nat) (v d : α)
    (h : i < l.length) : (l.set i v).getD i d = v := by
  induction l generalizing i with
  | nil => simp at h
  | cons a t ih =>
    cases i with
    | zero => rfl
    | succ i0 =>
      show (t.set i0 v).getD i0 d = v
      exact ih i0 (by simpa using h)

theorem set_oob {α : Type} (l : List α) (i : Nat) (v : α)
    (h : l.length ≤ i) : l.set i v = l := by
  induction l generalizing i with
  | nil => rfl
  | cons a t ih =>
    cases i with
    | zero => simp at h
    | succ i0 =>
      show a :: t.set i0 v = a :: t
      rw [ih i0 (by simpa using h)]

theorem foldl_set_getD_not_mem {α : Type} (d : α) :
    ∀ (l : List (α × Nat)) (ts : List α) (i : Nat), i ∉ l.map Prod.snd →
      (l.foldl (fun a p => a.set p.2 p.1) ts).getD i d = ts.getD i d := by
  intro l
  induction l with
  | nil => intro ts i _; rfl
  | cons p t ih =>
    intro ts i h
    rw [List.map_cons, List.mem_cons] at h
    push_neg at h
    rw [List.foldl_cons, ih _ _ h.2]
    exact getD_set_ne _ _ _ _ _ (fun he => h.1 he.symm)

theorem foldl_set_length {α : Type} :
    ∀ (l : List (α × Nat)) (ts : List α),
      (l.foldl (fun a p => a.set p.2 p.1) ts).length = ts.length := by
  intro l
  induction l with
  | nil => intro ts; rfl
  | cons p t ih =>
    intro ts
    rw [List.foldl_cons, ih, List.length_set]

theorem foldl_set_getD_mem {α : Type} (d : α) :
    ∀ (l : List (α × Nat)) (ts : List α), (∀ p ∈ l, p.2 < ts.length) →
      (l.map Prod.snd).Nodup →
      ∀ v i, (v, i) ∈ l →
        (l.foldl (fun a p => a.set p.2 p.1) ts).getD i d = v := by
  intro l
  induction l with
  | nil => intro ts _ _ v i h; simp at h
  | cons p t ih =>
    intro ts hlen hnd v i hmem
    obtain ⟨pv, pi⟩ := p
    rw [List.map_cons, List.nodup_cons] at hnd
    rw [List.foldl_cons]
    rcases List.mem_cons.mp hmem with heq | hmem'
    · obtain ⟨rfl, rfl⟩ := Prod.mk.injEq .. ▸ heq
      rw [foldl_set_getD_not_mem d t _ i hnd.1]
      exact getD_set_self _ _ _ _ (hlen (v, i) (List.mem_cons_self _ _))
    · refine ih _ ?_ hnd.2 v i hmem'
      intro q hq
      rw [List.length_set]
      exact hlen q (List.mem_cons_of_mem _ hq)

/-! Index arithmetic: a cell's own index differs from each of its four
direct-neighbor indexes. -/

theorem idx_ne_up (x y w : Nat) (hy : y ≠ 0) (hw : 0 < w) :
    index_from_xy x y w ≠ index_from_xy x (y - 1) w := by
  obtain ⟨y0, rfl⟩ : ∃ y0, y = y0 + 1 := ⟨y - 1, by omega⟩
  simp only [index_from_xy, Nat.add_sub_cancel, Nat.succ_mul]
  omega

theorem idx_ne_down (x y w : Nat) (hw : 0 < w) :
    index_from_xy x y w ≠ index_from_xy x (y + 1) w := by
  simp only [index_from_xy, Nat.succ_mul]
  omega

theorem idx_ne_right (x y w : Nat) :
    index_from_xy x y w ≠ index_from_xy (x + 1) y w := by
  simp only [index_from_xy]
  omega

theorem idx_ne_left (x y w : Nat) (hx : x ≠ 0) :
    index_from_xy x y w ≠ index_from_xy (x - 1) y w := by
  simp only [index_from_xy]
  omega

/-! Structural lemmas about `compare`, `compare_neighbors` and
`collapse`. -/

theorem compare_history (m : Map) (p : Pattern) (x y a b : Nat) :
    (m.compare p x y a b).history = m.history := rfl

theorem compare_width (m : Map) (p : Pattern) (x y a b : Nat) :
    (m.compare p x y a b).width = m.width := rfl

theorem compare_tiles_length (m : Map) (p : Pattern) (x y a b : Nat) :
    (m.compare p x y a b).tiles.length = m.tiles.length := by
  simp [Map.compare, List.length_set]

theorem compare_getD_ne (m : Map) (p : Pattern) (x y a b j : Nat)
    (h : j ≠ index_from_xy x y m.width) :
    (m.compare p x y a b).tiles.getD j defaultTile
      = m.tiles.getD j defaultTile := by
  simp only [Map.compare]
  exact getD_set_ne _ _ _ _ _ (fun he => h he.symm)

theorem compare_getD_collapsed (m : Map) (p : Pattern) (x y a b j : Nat) :
    ((m.compare p x y a b).tiles.getD j defaultTile).collapsed
      = (m.tiles.getD j defaultTile).collapsed := by
  simp only [Map.compare]
  by_cases hj : j = index_from_xy x y m.width
  · rw [hj]
    by_cases hlen : index_from_xy x y m.width < m.tiles.length
    · rw [getD_set_self _ _ _ _ hlen]
    · rw [set_oob _ _ _ (by omega)]
  · rw [getD_set_ne _ _ _ _ _ (fun he => hj he.symm)]

theorem compare_neighbors_history (m : Map) (p : Pattern) (x y : Nat) :
    (m.compare_neighbors p x y).history = m.history := by
  simp only [Map.compare_neighbors]
  split <;> split <;> split <;> split <;> rfl

theorem compare_neighbors_tiles_length (m : Map) (p : Pattern) (x y : Nat) :
    (m.compare_neighbors p x y).tiles.length = m.tiles.length := by
  simp only [Map.compare_neighbors]
  split <;> split <;> split <;> split <;>
    simp [Map.compare, List.length_set]

theorem compare_neighbors_getD_collapsed (m : Map) (p : Pattern) (x y j : Nat) :
    ((m.compare_neighbors p x y).tiles.getD j defaultTile).collapsed
      = (m.tiles.getD j defaultTile).collapsed := by
  simp only [Map.compare_neighbors]
  split <;> split <;> split <;> split <;>
    simp only [compare_getD_collapsed]

theorem compare_neighbors_getD_ne (m : Map) (p : Pattern) (x y j : Nat)
    (hjn : j ∉ m.neighbor_targets x y) :
    (m.compare_neighbors p x y).tiles.getD j defaultTile
      = m.tiles.getD j defaultTile := by
  simp only [Map.neighbor_targets, List.mem_append] at hjn
  push_neg at hjn
  obtain ⟨⟨⟨hU, hR⟩, hD⟩, hL⟩ := hjn
  simp only [Map.compare_neighbors]
  by_cases h1 : y ≠ 0 <;> by_cases h2 : x ≠ m.width - 1 <;>
    by_cases h3 : y ≠ m.height - 1 <;> by_cases h4 : x ≠ 0 <;>
    (first | rw [if_pos h1] at hU ⊢ | rw [if_neg h1] at hU ⊢) <;>
    (first | rw [if_pos h2] at hR ⊢ | rw [if_neg h2] at hR ⊢) <;>
    (first | rw [if_pos h3] at hD ⊢ | rw [if_neg h3] at hD ⊢) <;>
    (first | rw [if_pos h4] at hL ⊢ | rw [if_neg h4] at hL ⊢) <;>
    (try simp only [List.mem_singleton] at hU) <;>
    (try simp only [List.mem_singleton] at hR) <;>
    (try simp only [List.mem_singleton] at hD) <;>
    (try simp only [List.mem_singleton] at hL) <;>
    (repeat rw [compare_getD_ne]) <;>
    (try simp only [compare_width]) <;>
    (first | rfl | exact hU | exact hR | exact hD | exact hL)

theorem mem_neighbor_targets_iff (m : Map) (x y j : Nat) :
    j ∈ m.neighbor_targets x y ↔
      (y ≠ 0 ∧ j = index_from_xy x (y - 1) m.width)
      ∨ (x ≠ m.width - 1 ∧ j = index_from_xy (x + 1) y m.width)
      ∨ (y ≠ m.height - 1 ∧ j = index_from_xy x (y + 1) m.width)
      ∨ (x ≠ 0 ∧ j = index_from_xy (x - 1) y m.width) := by
  simp only [Map.neighbor_targets, List.mem_append, List.mem_singleton]
  by_cases h1 : y ≠ 0 <;> by_cases h2 : x ≠ m.width - 1 <;>
    by_cases h3 : y ≠ m.height - 1 <;> by_cases h4 : x ≠ 0 <;>
    simp [h1, h2, h3, h4] <;> tauto

theorem target_not_mem (m : Map) (x y : Nat) (hx : x < m.width)
    (hy : y < m.height) :
    index_from_xy x y m.width ∉ m.neighbor_targets x y := by
  have hw : 0 < m.width := Nat.lt_of_le_of_lt (Nat.zero_le x) hx
  rw [mem_neighbor_targets_iff]
  intro hmem
  rcases hmem with ⟨hy0, he⟩ | ⟨_, he⟩ | ⟨_, he⟩ | ⟨hx0, he⟩
  · exact idx_ne_up x y m.width hy0 hw he
  · exact idx_ne_right x y m.width he
  · exact idx_ne_down x y m.width hw he
  · exact idx_ne_left x y m.width hx0 he

theorem collapse_snd_history (m : Map) (x y d : Nat) :
    (m.collapse x y d).2.history = m.history := by
  simp only [Map.collapse]
  split
  · rfl
  · split
    · rfl
    · exact compare_neighbors_history m _ x y

theorem collapse_tiles_length (m : Map) (x y d : Nat) :
    (m.collapse x y d).2.tiles.length = m.tiles.length := by
  simp only [Map.collapse]
  split
  · rfl
  · split
    · rfl
    · exact (List.length_set _ _ _).trans (compare_neighbors_tiles_length m _ x y)

theorem collapse_getD_ne (m : Map) (x y d j : Nat)
    (hj : j ≠ index_from_xy x y m.width)
    (hjn : j ∉ m.neighbor_targets x y) :
    (m.collapse x y d).2.tiles.getD j defaultTile
      = m.tiles.getD j defaultTile := by
  simp only [Map.collapse]
  split
  · rfl
  · split
    · rfl
    · exact (getD_set_ne _ _ _ _ _ (fun he => hj he.symm)).trans
        (compare_neighbors_getD_ne m _ x y j hjn)

theorem collapse_collapsed_ne (m : Map) (x y d j : Nat)
    (hj : j ≠ index_from_xy x y m.width) :
    ((m.collapse x y d).2.tiles.getD j defaultTile).collapsed
      = (m.tiles.getD j defaultTile).collapsed := by
  simp only [Map.collapse]
  split
  · rfl
  · split
    · rfl
    · exact (congrArg MapTile.collapsed
          (getD_set_ne _ _ _ _ _ (fun he => hj he.symm))).trans
        (compare_neighbors_getD_collapsed m _ x y j)

theorem collapse_snd_tiles_some (m : Map) (x y d : Nat) (pat : Pattern)
    (hc : (m.collapse x y d).1 = some pat) :
    (m.collapse x y d).2.tiles
      = (m.compare_neighbors pat x y).tiles.set (index_from_xy x y m.width)
          { (m.compare_neighbors pat x y).tiles.getD (index_from_xy x y m.width) defaultTile with collapsed := some pat } := by
  simp only [Map.collapse] at hc ⊢
  by_cases hcond : ((m.tiles.getD (index_from_xy x y m.width) defaultTile).options.length == 0) = true
  · rw [if_pos hcond] at hc
    simp at hc
  · rw [if_neg hcond] at hc ⊢
    rcases hcp : (m.tiles.getD (index_from_xy x y m.width) defaultTile).choose_pattern d
      with _ | p
    · rw [hcp] at hc
      simp at hc
    · rw [hcp] at hc
      have hp : p = pat := by simpa using hc
      subst hp
      rfl

theorem collapse_getD_target (m : Map) (x y d : Nat) (pat : Pattern)
    (hx : x < m.width) (hy : y < m.height)
    (hi : index_from_xy x y m.width < m.tiles.length)
    (hc : (m.collapse x y d).1 = some pat) :
    (m.collapse x y d).2.tiles.getD (index_from_xy x y m.width) defaultTile
      = { m.tiles.getD (index_from_xy x y m.width) defaultTile with
          collapsed := some pat } := by
  rw [collapse_snd_tiles_some m x y d pat hc]
  rw [getD_set_self _ _ _ _ (by rw [compare_neighbors_tiles_length]; exact hi)]
  rw [compare_neighbors_getD_ne m pat x y _ (target_not_mem m x y hx hy)]

theorem collapse_empty (m : Map) (x y d : Nat)
    (h : (m.tiles.getD (index_from_xy x y m.width) defaultTile).options = []) :
    m.collapse x y d = (none, m) := by
  simp only [Map.collapse, h, List.length_nil]
  exact if_pos rfl

theorem step_eq_push (m : Map) (k d x y : Nat) (pat : Pattern)
    (hl : m.lowest_entropy_tile k = some (x, y))
    (hc : (m.collapse x y d).1 = some pat) :
    m.step k d = ({ (m.collapse x y d).2 with history :=
        if (m.history ++ [(m.snapshot_tiles x y, pat)]).length - 1 == HISTORY_LENGTH
        then (m.history ++ [(m.snapshot_tiles x y, pat)]).drop 1
        else m.history ++ [(m.snapshot_tiles x y, pat)] }, true) := by
  have hcol : m.collapse x y d = (some pat, (m.collapse x y d).2) := by
    rw [← hc]
  simp only [Map.step, hl]
  rw [hcol]
  simp only [collapse_snd_history]

/-! Lemmas about `lowest_entropy_tile` and `step` at terminal states. -/

theorem foldl_entropy_const (m : Map) (l : List Nat)
    (h : ∀ i ∈ l, (m.tiles.getD i defaultTile).collapsed.isSome)
    (acc : List (Nat × Nat) × Nat) :
    l.foldl (entropy_fold m) acc = acc := by
  induction l generalizing acc with
  | nil => rfl
  | cons a t ih =>
    rw [List.foldl_cons]
    have ha := h a (List.mem_cons_self _ _)
    rcases hv : (m.tiles.getD a defaultTile).collapsed with _ | v
    · rw [hv] at ha
      simp at ha
    · have : entropy_fold m acc a = acc := by
        simp only [entropy_fold, hv]
        rfl
      rw [this]
      exact ih (fun i hi => h i (List.mem_cons_of_mem _ hi)) acc

theorem lowest_entropy_none (m : Map) (k : Nat)
    (h : ∀ t ∈ m.tiles, t.collapsed.isSome) :
    m.lowest_entropy_tile k = none := by
  have hall : ∀ i ∈ List.range m.tiles.length,
      (m.tiles.getD i defaultTile).collapsed.isSome := by
    intro i hi
    have hlt := List.mem_range.mp hi
    rw [List.getD_eq_getElem?_getD, List.getElem?_eq_getElem hlt]
    exact h _ (List.getElem_mem hlt)
  simp [Map.lowest_entropy_tile, foldl_entropy_const m _ hall]

/-! Claim theorems. -/

/-- C1 (corrected).  The claim asserts a worklist-driven fixpoint whose
effect reaches cells at any grid distance; the code's propagation is a
single unconditional pass over the four direct neighbors of the
collapsed cell: a cell that is neither the collapse target nor one of
its four direct neighbors is untouched by a collapsing `step`, so the
effect never reaches grid distance 2 and shrunken neighbors are not
re-propagated. -/
theorem claim_propagation_single_pass (m : Map) (k d x y j : Nat) (pat : Pattern)
    (hl : m.lowest_entropy_tile k = some (x, y))
    (hc : (m.collapse x y d).1 = some pat)
    (hj : j ≠ index_from_xy x y m.width)
    (hjn : j ∉ m.neighbor_targets x y) :
    (m.step k d).1.tiles.getD j defaultTile = m.tiles.getD j defaultTile := by
  rw [step_eq_push m k d x y pat hl hc]
  exact collapse_getD_ne m x y d j hj hjn

/-- Witness for C1: on the 3×1 grid `M1` the collapse at cell 0 leaves
cell 2 untouched. -/
theorem claim_propagation_single_pass_witness :
    (M1.step 0 0).1.tiles.getD 2 defaultTile = M1.tiles.getD 2 defaultTile :=
  claim_propagation_single_pass M1 0 0 0 0 2 pA (by decide) (by decide)
    (by decide) (by decide)

/-- Counterexample for C1 as stated: after one `step` on `M1`, cell 1's
domain shrank (4 → 1) but cell 2 (grid distance 2) still holds its full
domain, and filtering cell 2's domain by edge-compatibility with cell
1's remaining domain would shrink it further — the pass ended although a
domain could still shrink, and the effect did not reach beyond the 4
direct neighbors. -/
theorem claim_propagation_counterexample :
    (M1.step 0 0).2 = true
    ∧ (M1.tiles.getD 1 defaultTile).options.length = 4
    ∧ ((M1.step 0 0).1.tiles.getD 1 defaultTile).options = [pB]
    ∧ ((M1.step 0 0).1.tiles.getD 2 defaultTile).options = [pA, pB, pC, pD]
    ∧ (((M1.step 0 0).1.tiles.getD 2 defaultTile).options.filter (fun p =>
        ((M1.step 0 0).1.tiles.getD 1 defaultTile).options.any (fun q =>
          q.edges.get 1 == p.edges.get 3)))
      ≠ ((M1.step 0 0).1.tiles.getD 2 defaultTile).options := by decide

/-- C2 (corrected).  The claim asserts every cell whose domain reaches a
single pattern during the pass is eagerly committed; in the code only
the originally-targeted cell is committed: a collapsing `step` leaves
the `collapsed` field of every other cell unchanged. -/
theorem claim_commit_only_target (m : Map) (k d x y j : Nat) (pat : Pattern)
    (hl : m.lowest_entropy_tile k = some (x, y))
    (hc : (m.collapse x y d).1 = some pat)
    (hj : j ≠ index_from_xy x y m.width) :
    ((m.step k d).1.tiles.getD j defaultTile).collapsed
      = (m.tiles.getD j defaultTile).collapsed := by
  rw [step_eq_push m k d x y pat hl hc]
  exact collapse_collapsed_ne m x y d j hj

/-- Witness for C2: on `M1` the neighbor cell 1 keeps its `collapsed`
state across the step. -/
theorem claim_commit_only_target_witness :
    ((M1.step 0 0).1.tiles.getD 1 defaultTile).collapsed
      = (M1.tiles.getD 1 defaultTile).collapsed :=
  claim_commit_only_target M1 0 0 0 0 1 pA (by decide) (by decide) (by decide)

/-- Counterexample for C2 as stated: after one `step` on `M1`, cell 1's
domain has exactly one pattern yet its `collapsed` field is still
`none` — the singleton is not eagerly committed during the pass. -/
theorem claim_auto_collapse_counterexample :
    (M1.step 0 0).2 = true
    ∧ ((M1.step 0 0).1.tiles.getD 1 defaultTile).options.length = 1
    ∧ ((M1.step 0 0).1.tiles.getD 1 defaultTile).collapsed = none := by decide

/-- C3 (confirmed).  When every cell is collapsed, `step` returns
`false` with the map unchanged; when the chosen cell's domain is empty,
`step` unwinds and returns `true` if the history is non-empty, and
returns `false` (map unchanged) if the history is empty. -/
theorem claim_step_terminal (m : Map) (k d : Nat) :
    ((∀ t ∈ m.tiles, t.collapsed.isSome) → m.step k d = (m, false))
    ∧ (∀ x y, m.lowest_entropy_tile k = some (x, y) →
        (m.tiles.getD (index_from_xy x y m.width) defaultTile).options = [] →
        m.step k d = if 0 < m.history.length then (m.unwind, true) else (m, false)) := by
  constructor
  · intro h
    simp [Map.step, lowest_entropy_none m k h]
  · intro x y hl hopt
    simp only [Map.step, hl, collapse_empty m x y d hopt]

/-- Witness for C3: the finished grid `Mfin`, the contradiction grid
with history `McontraH`, and the contradiction grid without history
`McontraE`. -/
theorem claim_step_terminal_witness :
    Mfin.step 0 0 = (Mfin, false)
    ∧ McontraH.step 0 0 = (McontraH.unwind, true)
    ∧ McontraE.step 0 0 = (McontraE, false) := by
  refine ⟨(claim_step_terminal Mfin 0 0).1 (by decide), ?_, ?_⟩
  · have h := (claim_step_terminal McontraH 0 0).2 0 0 (by decide) (by decide)
    rw [if_pos (by decide)] at h
    exact h
  · have h := (claim_step_terminal McontraE 0 0).2 0 0 (by decide) (by decide)
    rw [if_neg (by decide)] at h
    exact h

/-- C5 (corrected).  The claim asserts the commit replaces the cell's
domain by the singleton of the chosen pattern; the code only sets the
`collapsed` field and leaves the cell's `options` unchanged. -/
theorem claim_commit_keeps_domain (m : Map) (x y d : Nat) (pat : Pattern)
    (hx : x < m.width) (hy : y < m.height)
    (hi : index_from_xy x y m.width < m.tiles.length)
    (hc : (m.collapse x y d).1 = some pat) :
    (m.collapse x y d).2.tiles.getD (index_from_xy x y m.width) defaultTile
      = { m.tiles.getD (index_from_xy x y m.width) defaultTile with
          collapsed := some pat } :=
  collapse_getD_target m x y d pat hx hy hi hc

/-- Witness for C5: the 1×1 grid `M5`. -/
theorem claim_commit_keeps_domain_witness :
    (M5.collapse 0 0 0).2.tiles.getD (index_from_xy 0 0 M5.width) defaultTile
      = { M5.tiles.getD (index_from_xy 0 0 M5.width) defaultTile with
          collapsed := some pA } :=
  claim_commit_keeps_domain M5 0 0 0 pA (by decide) (by decide) (by decide)
    (by decide)

/-- Counterexample for C5 as stated: collapsing `M5`'s only cell on `pA`
leaves its domain `[pA, pB]`, not the singleton `[pA]`. -/
theorem claim_commit_domain_counterexample :
    (M5.collapse 0 0 0).1 = some pA
    ∧ ((M5.collapse 0 0 0).2.tiles.getD 0 defaultTile).collapsed = some pA
    ∧ ((M5.collapse 0 0 0).2.tiles.getD 0 defaultTile).options = [pA, pB]
    ∧ ((M5.collapse 0 0 0).2.tiles.getD 0 defaultTile).options ≠ [pA] := by
  decide

/-- C6 (corrected).  The claim asserts that after a non-backtracking
step every cell is collapsed or keeps a non-empty domain; in the code a
direct neighbor of the collapsed cell can be left with an empty domain.
What holds: if every cell was collapsed-or-non-empty before the step,
then after a collapsing step every cell is collapsed, non-empty, or one
of the four direct neighbors of the target. -/
theorem claim_step_domains (m : Map) (k d x y : Nat) (pat : Pattern)
    (hl : m.lowest_entropy_tile k = some (x, y))
    (hc : (m.collapse x y d).1 = some pat)
    (hx : x < m.width) (hy : y < m.height)
    (hpre : ∀ t ∈ m.tiles, t.collapsed.isSome ∨ t.options ≠ []) :
    ∀ j, j < m.tiles.length →
      ((m.step k d).1.tiles.getD j defaultTile).collapsed.isSome
      ∨ ((m.step k d).1.tiles.getD j defaultTile).options ≠ []
      ∨ j ∈ m.neighbor_targets x y := by
  intro j hjlen
  have hstep : (m.step k d).1.tiles = (m.collapse x y d).2.tiles := by
    rw [step_eq_push m k d x y pat hl hc]
  by_cases hji : j = index_from_xy x y m.width
  · left
    rw [hstep, hji, collapse_getD_target m x y d pat hx hy (hji ▸ hjlen) hc]
    rfl
  · by_cases hjn : j ∈ m.neighbor_targets x y
    · right; right; exact hjn
    · rw [hstep, collapse_getD_ne m x y d j hji hjn]
      have hmem : m.tiles.getD j defaultTile ∈ m.tiles := by
        rw [List.getD_eq_getElem?_getD, List.getElem?_eq_getElem hjlen]
        exact List.getElem_mem hjlen
      rcases hpre _ hmem with h | h
      · left; exact h
      · right; left; exact h

/-- Witness for C6: cell 0 of `M6` after its collapsing step. -/
theorem claim_step_domains_witness :
    ((M6.step 0 0).1.tiles.getD 0 defaultTile).collapsed.isSome
    ∨ ((M6.step 0 0).1.tiles.getD 0 defaultTile).options ≠ []
    ∨ 0 ∈ M6.neighbor_targets 0 0 :=
  claim_step_domains M6 0 0 0 0 pA (by decide) (by decide) (by decide)
    (by decide) (by decide) 0 (by decide)

/-- Counterexample for C6 as stated: on `M6`, a step with empty history
(hence no backtrack) returns `true` and leaves cell 1 uncollapsed with
an empty domain. -/
theorem claim_step_domains_counterexample :
    M6.history = []
    ∧ (M6.step 0 0).2 = true
    ∧ ((M6.step 0 0).1.tiles.getD 1 defaultTile).collapsed = none
    ∧ ((M6.step 0 0).1.tiles.getD 1 defaultTile).options = [] := by decide

/-- C4 (confirmed).  After `unwind` pops the most recent snapshot, the
attempted pattern is absent from the restored domain of the snapshot's
first (target) cell, and every other captured cell is restored exactly
to its captured value.  The snapshot's indexes are assumed in range and
pairwise distinct, as `get_surrounding_indexes` produces them. -/
theorem claim_unwind_restores (m : Map)
    (hs : List (List (MapTile × Nat) × Pattern)) (t0 : MapTile) (i0 : Nat)
    (rest : List (MapTile × Nat)) (pat : Pattern)
    (hh : m.history = hs ++ [((t0, i0) :: rest, pat)])
    (hlen : ∀ p ∈ (t0, i0) :: rest, p.2 < m.tiles.length)
    (hnd : (((t0, i0) :: rest).map Prod.snd).Nodup) :
    m.unwind.history = hs
    ∧ (∀ p ∈ (m.unwind.tiles.getD i0 defaultTile).options,
        patterns_are_equal p pat = false)
    ∧ ∀ t i, (t, i) ∈ rest → m.unwind.tiles.getD i defaultTile = t := by
  have hni : i0 ∉ rest.map Prod.snd := by
    rw [List.map_cons, List.nodup_cons] at hnd
    exact hnd.1
  have hu : m.unwind = { m with
      tiles := (({ t0 with options :=
            t0.options.filter (fun p => !(patterns_are_equal p pat)) }, i0)
          :: rest).foldl (fun ts ti => ts.set ti.2 ti.1) m.tiles
      history := hs } := by
    simp only [Map.unwind, hh, List.getLast?_concat, List.dropLast_concat]
  have htiles : m.unwind.tiles = (({ t0 with options := t0.options.filter (fun p => !(patterns_are_equal p pat)) }, i0) :: rest).foldl (fun ts ti => ts.set ti.2 ti.1) m.tiles := by
    rw [hu]
  refine ⟨by rw [hu], ?_, ?_⟩
  · intro p hp
    rw [htiles, List.foldl_cons, foldl_set_getD_not_mem defaultTile rest _ i0 hni,
      getD_set_self _ _ _ _ (hlen (t0, i0) (List.mem_cons_self _ _))] at hp
    simpa using (List.mem_filter.mp hp).2
  · intro t i hti
    rw [htiles]
    refine foldl_set_getD_mem defaultTile _ m.tiles ?_ ?_ t i
      (List.mem_cons_of_mem _ hti)
    · intro q hq
      rcases List.mem_cons.mp hq with hq0 | hq1
      · rw [hq0]
        exact hlen (t0, i0) (List.mem_cons_self _ _)
      · exact hlen q (List.mem_cons_of_mem _ hq1)
    · rw [List.map_cons]
      rw [List.map_cons, List.nodup_cons] at hnd
      exact List.nodup_cons.mpr hnd

/-- Witness for C4: the grid `MundoEx` with one two-cell snapshot. -/
theorem claim_unwind_restores_witness :
    MundoEx.unwind.history = []
    ∧ patterns_are_equal pB pA = false
    ∧ MundoEx.unwind.tiles.getD 1 defaultTile = ⟨none, [pC]⟩ := by
  have h := claim_unwind_restores MundoEx [] ⟨none, [pA, pB]⟩ 0
    [(⟨none, [pC]⟩, 1)] pA (by decide) (by decide) (by decide)
  exact ⟨h.1, h.2.1 pB (by decide), h.2.2 ⟨none, [pC]⟩ 1 (by decide)⟩

theorem unwind_history_length (m : Map) :
    m.unwind.history.length ≤ m.history.length := by
  simp only [Map.unwind]
  rcases hlast : m.history.getLast? with _ | pr
  · exact le_refl _
  · obtain ⟨snap, pp⟩ := pr
    cases snap <;> simp [List.length_dropLast]

theorem drop_one_concat {α : Type} (l : List α) (a : α) (h : l ≠ []) :
    (l ++ [a]).drop 1 = l.drop 1 ++ [a] := by
  cases l with
  | nil => exact absurd rfl h
  | cons hd tl => rfl

theorem step_history_push (m : Map) (k d x y : Nat) (pat : Pattern)
    (hl : m.lowest_entropy_tile k = some (x, y))
    (hc : (m.collapse x y d).1 = some pat) :
    (m.step k d).1.history
      = if (m.history ++ [(m.snapshot_tiles x y, pat)]).length - 1 == HISTORY_LENGTH
        then (m.history ++ [(m.snapshot_tiles x y, pat)]).drop 1
        else m.history ++ [(m.snapshot_tiles x y, pat)] := by
  rw [step_eq_push m k d x y pat hl hc]

theorem step_contra_eq (m : Map) (k d x y : Nat)
    (hl : m.lowest_entropy_tile k = some (x, y))
    (hcf : (m.collapse x y d).1 = none) :
    m.step k d
      = if 0 < (m.collapse x y d).2.history.length
        then ((m.collapse x y d).2.unwind, true)
        else ((m.collapse x y d).2, false) := by
  have hcol : m.collapse x y d = (none, (m.collapse x y d).2) := by
    rw [← hcf]
  simp only [Map.step, hl]
  rw [hcol]

/-- C8 (confirmed).  The history is bounded by `HISTORY_LENGTH`: `step`,
`unwind` and `reset` preserve the bound, and a collapsing `step` on a
full history evicts the oldest snapshot while pushing the new one. -/
theorem claim_history_ring (m : Map) (opts : List Pattern) (k d x y : Nat)
    (pat : Pattern) (hle : m.history.length ≤ HISTORY_LENGTH) :
    (m.step k d).1.history.length ≤ HISTORY_LENGTH
    ∧ m.unwind.history.length ≤ HISTORY_LENGTH
    ∧ (m.reset opts).history.length ≤ HISTORY_LENGTH
    ∧ (m.lowest_entropy_tile k = some (x, y) →
        (m.collapse x y d).1 = some pat →
        m.history.length = HISTORY_LENGTH →
        (m.step k d).1.history
          = m.history.drop 1 ++ [(m.snapshot_tiles x y, pat)]) := by
  refine ⟨?_, le_trans (unwind_history_length m) hle, Nat.zero_le _, ?_⟩
  · rcases hl : m.lowest_entropy_tile k with _ | xy
    · simp only [Map.step, hl]
      exact hle
    · obtain ⟨x', y'⟩ := xy
      rcases hcf : (m.collapse x' y' d).1 with _ | p
      · rw [step_contra_eq m k d x' y' hl hcf]
        have hh2 : (m.collapse x' y' d).2.history.length ≤ HISTORY_LENGTH := by
          rw [collapse_snd_history]
          exact hle
        by_cases h0 : 0 < (m.collapse x' y' d).2.history.length
        · rw [if_pos h0]
          exact le_trans (unwind_history_length _) hh2
        · rw [if_neg h0]
          exact hh2
      · rw [step_history_push m k d x' y' p hl hcf]
        by_cases hfull : ((m.history ++ [(m.snapshot_tiles x' y', p)]).length - 1
            == HISTORY_LENGTH) = true
        · rw [if_pos hfull, List.length_drop, List.length_append]
          simp only [beq_iff_eq, List.length_append, List.length_singleton] at hfull
          simp only [List.length_singleton]
          omega
        · rw [if_neg hfull]
          rw [List.length_append] at hfull ⊢
          simp only [beq_iff_eq] at hfull
          simp only [List.length_singleton] at hfull ⊢
          omega
  · intro hl hc hfull
    rw [step_history_push m k d x y pat hl hc]
    have hcond : ((m.history ++ [(m.snapshot_tiles x y, pat)]).length - 1
        == HISTORY_LENGTH) = true := by
      rw [List.length_append, hfull]
      rfl
    rw [if_pos hcond]
    exact drop_one_concat _ _ (by
      intro h0
      rw [h0] at hfull
      simp [HISTORY_LENGTH] at hfull)

/-- Witness for C8: the full-history grid `MfullH`. -/
theorem claim_history_ring_witness :
    (MfullH.step 0 0).1.history.length ≤ HISTORY_LENGTH
    ∧ (MfullH.step 0 0).1.history
        = MfullH.history.drop 1 ++ [(MfullH.snapshot_tiles 0 0, pA)] := by
  have h := claim_history_ring MfullH [pA] 0 0 0 0 pA (by decide)
  exact ⟨h.1, h.2.2.2 (by decide) (by decide) (by decide)⟩

theorem u32_as_i32_of_lt (n : Nat) (h : n < 2147483648) :
    u32_as_i32 n = (n : Int) := by
  unfold u32_as_i32
  rw [Nat.mod_eq_of_lt (by omega)]
  rw [if_pos h]

theorem i32_wrap_eq (z : Int) (h1 : -2147483648 ≤ z) (h2 : z < 2147483648) :
    i32_wrap z = z := by
  unfold i32_wrap
  rw [Int.emod_eq_of_lt (by omega) (by omega)]
  omega

theorem foldl_weight_mod_eq (l : List Pattern) : ∀ acc : Nat,
    acc + (l.map Pattern.weight).sum < 4294967296 →
    l.foldl (fun a p => (a + p.weight) % 4294967296) acc
      = acc + (l.map Pattern.weight).sum := by
  induction l with
  | nil => intro acc _; simp
  | cons p t ih =>
    intro acc hb
    rw [List.map_cons, List.sum_cons] at hb
    rw [List.foldl_cons]
    have hm : (acc + p.weight) % 4294967296 = acc + p.weight :=
      Nat.mod_eq_of_lt (by omega)
    rw [hm, ih (acc + p.weight) (by omega), List.map_cons, List.sum_cons]
    omega

theorem choose_walk_isSome (l : List Pattern) : ∀ tw : Int, l ≠ [] →
    tw ≤ (((l.map Pattern.weight).sum : Nat) : Int) →
    tw < 2147483648 →
    -2147483648 < tw - (((l.map Pattern.weight).sum : Nat) : Int) →
    (∀ p ∈ l, p.weight < 2147483648) →
    (choose_walk l tw).isSome = true := by
  induction l with
  | nil => intro tw h _ _ _ _; exact absurd rfl h
  | cons p t ih =>
    intro tw _ hle hub hlb hws
    rw [List.map_cons, List.sum_cons] at hle hlb
    have hpw : p.weight < 2147483648 := hws p (List.mem_cons_self _ _)
    simp only [choose_walk]
    rw [u32_as_i32_of_lt p.weight hpw]
    have hwrap : i32_sub tw ((p.weight : Nat) : Int) = tw - (p.weight : Int) :=
      i32_wrap_eq _ (by omega) (by omega)
    rw [hwrap]
    by_cases hcmp : tw - (p.weight : Int) ≤ 0
    · rw [if_pos hcmp]
      rfl
    · rw [if_neg hcmp]
      cases t with
      | nil =>
        exfalso
        simp only [List.map_nil, List.sum_nil] at hle
        exact hcmp (by omega)
      | cons q tq =>
        refine ih _ (by simp) ?_ ?_ ?_ ?_
        · omega
        · omega
        · omega
        · intro q2 hq2
          exact hws q2 (List.mem_cons_of_mem _ hq2)

/-- C10 (corrected).  The claim as stated fails because the walk's
`p.weight as i32` cast wraps: a weight at or above `2^31` is
reinterpreted as a negative `i32`, the subtraction makes the running
value grow, `find` can exhaust the list and the `unwrap` panics.  What
holds: for a non-empty domain whose weights are all positive and whose
total weight stays below `2^31` (so every cast and subtraction is
exact), the walk always stops at some pattern — the draw lies in
`[0, totalWeight]` and subtracting every weight drives the running
value to `≤ 0` by the last pattern. -/
theorem claim_choose_pattern_total (t : MapTile) (d : Nat)
    (hne : t.options ≠ []) (hw : ∀ p ∈ t.options, 1 ≤ p.weight)
    (hbound : (t.options.map Pattern.weight).sum < 2147483648) :
    (t.choose_pattern d).isSome = true := by
  simp only [MapTile.choose_pattern]
  have hfold : t.options.foldl (fun acc p => (acc + p.weight) % 4294967296) 0
      = (t.options.map Pattern.weight).sum := by
    rw [foldl_weight_mod_eq t.options 0 (by omega)]
    omega
  rw [hfold]
  have hhi : ((t.options.map Pattern.weight).sum + 1) % 4294967296
      = (t.options.map Pattern.weight).sum + 1 := Nat.mod_eq_of_lt (by omega)
  rw [hhi]
  rw [if_neg (Nat.succ_ne_zero _)]
  have hdraw : d % ((t.options.map Pattern.weight).sum + 1)
      ≤ (t.options.map Pattern.weight).sum :=
    Nat.le_of_lt_succ (Nat.mod_lt _ (Nat.succ_pos _))
  rw [u32_as_i32_of_lt _ (by omega)]
  refine choose_walk_isSome t.options _ hne ?_ ?_ ?_ ?_
  · exact_mod_cast hdraw
  · omega
  · omega
  · intro p hp
    have hle : p.weight ≤ (t.options.map Pattern.weight).sum :=
      List.single_le_sum (fun x _ => Nat.zero_le x) _
        (List.mem_map_of_mem Pattern.weight hp)
    omega

/-- Witness for C10: a singleton domain of weight 1 and draw oracle 5. -/
theorem claim_choose_pattern_total_witness :
    ([pA] ≠ ([] : List Pattern))
    ∧ (MapTile.choose_pattern ⟨none, [pA]⟩ 5).isSome = true :=
  ⟨by decide, claim_choose_pattern_total ⟨none, [pA]⟩ 5 (by decide) (by decide)
    (by decide)⟩

/-- Counterexample for C10 as stated: a singleton domain holding `pBig`
(weight `2^31 + 10`, a valid `u32`, `≥ 1`) with draw 5.  The cast
`weight as i32` is `-2147483638`, the one subtraction yields
`2147483643 > 0` with no `i32` overflow (so debug and release builds
agree), `find` exhausts the list and the `unwrap` panics —
`choose_pattern` is `none`, not some pattern. -/
theorem claim_choose_pattern_counterexample :
    ([pBig] ≠ ([] : List Pattern))
    ∧ (∀ p ∈ [pBig], 1 ≤ p.weight)
    ∧ pBig.weight < 4294967296
    ∧ MapTile.choose_pattern ⟨none, [pBig]⟩ 5 = none := by decide

theorem getD_map_range {β : Type} (n : Nat) (f : Nat → β) (i : Nat) (d : β)
    (h : i < n) : ((List.range n).map f).getD i d = f i := by
  rw [List.getD_eq_getElem?_getD, List.getElem?_map, List.getElem?_range h]
  rfl

theorem adjacency_lookup_up (ed : List Edges) (a : Nat) (ha : a < ed.length) :
    adjacency_lookup ed a (0, -1)
      = (List.range ed.length).filter (fun t =>
          (ed.getD a defaultEdges).get 0 == (ed.getD t defaultEdges).get 2) := by
  simp only [adjacency_lookup, create_adjacency_rules]
  rw [getD_map_range _ _ _ _ ha]
  rfl

theorem adjacency_lookup_down (ed : List Edges) (a : Nat) (ha : a < ed.length) :
    adjacency_lookup ed a (0, 1)
      = (List.range ed.length).filter (fun t =>
          (ed.getD a defaultEdges).get 2 == (ed.getD t defaultEdges).get 0) := by
  simp only [adjacency_lookup, create_adjacency_rules]
  rw [getD_map_range _ _ _ _ ha]
  rfl

theorem adjacency_lookup_right (ed : List Edges) (a : Nat) (ha : a < ed.length) :
    adjacency_lookup ed a (1, 0)
      = (List.range ed.length).filter (fun t =>
          (ed.getD a defaultEdges).get 1 == (ed.getD t defaultEdges).get 3) := by
  simp only [adjacency_lookup, create_adjacency_rules]
  rw [getD_map_range _ _ _ _ ha]
  rfl

theorem adjacency_lookup_left (ed : List Edges) (a : Nat) (ha : a < ed.length) :
    adjacency_lookup ed a (-1, 0)
      = (List.range ed.length).filter (fun t =>
          (ed.getD a defaultEdges).get 3 == (ed.getD t defaultEdges).get 1) := by
  simp only [adjacency_lookup, create_adjacency_rules]
  rw [getD_map_range _ _ _ _ ha]
  rfl

/-- C9 (confirmed).  The edge-code adjacency table is symmetric: `A`
admits `B` as its upper neighbor iff `B` admits `A` as its lower
neighbor, and `A` admits `B` to the right iff `B` admits `A` to the
left. -/
theorem claim_edge_adjacency_symmetric (ed : List Edges) (a b : Nat)
    (ha : a < ed.length) (hb : b < ed.length) :
    (b ∈ adjacency_lookup ed a (0, -1) ↔ a ∈ adjacency_lookup ed b (0, 1))
    ∧ (b ∈ adjacency_lookup ed a (1, 0) ↔ a ∈ adjacency_lookup ed b (-1, 0)) := by
  rw [adjacency_lookup_up ed a ha, adjacency_lookup_down ed b hb,
    adjacency_lookup_right ed a ha, adjacency_lookup_left ed b hb]
  constructor <;>
    · simp only [List.mem_filter, List.mem_range, beq_iff_eq]
      constructor
      · rintro ⟨_, he⟩
        exact ⟨ha, he.symm⟩
      · rintro ⟨_, he⟩
        exact ⟨hb, he.symm⟩

/-- Witness for C9: the two-pattern edge table `edEx`. -/
theorem claim_edge_adjacency_symmetric_witness :
    (1 ∈ adjacency_lookup edEx 0 (0, -1) ↔ 0 ∈ adjacency_lookup edEx 1 (0, 1))
    ∧ (1 ∈ adjacency_lookup edEx 0 (1, 0) ↔ 0 ∈ adjacency_lookup edEx 1 (-1, 0)) :=
  claim_edge_adjacency_symmetric edEx 0 1 (by decide) (by decide)

/-- C7 (code_bug).  The claim says an indivisible source dimension
yields an empty catalog; the code checks only the width.  On a 2×3
image with tile size 2 (width divisible, height not), the loop enters
the partial last row and `sub_image` reads out of bounds — a Rust
panic, modelled as `none` — instead of returning the empty catalog.
The width half of the check does work: a 3×2 image is rejected with an
empty catalog. -/
theorem claim_divisibility_check :
    (⟨2, 3, [0, 1, 2, 3, 4, 5]⟩ : Image).width % 2 = 0
    ∧ (⟨2, 3, [0, 1, 2, 3, 4, 5]⟩ : Image).height % 2 ≠ 0
    ∧ image_to_textures ⟨2, 3, [0, 1, 2, 3, 4, 5]⟩ 2 = none
    ∧ image_to_textures ⟨3, 2, [0, 1, 2, 3, 4, 5]⟩ 2 = some ([], []) := by
  decide

end WFC
